import Mathlib

/-!
Shallow embedding of the APP score calculation core (`app_core.py`):
key normalization, the CiteScore reference-table loader's column
resolution, the candidate matcher, the per-publication enrichment pass,
and the APP scoring engine.  Machine floats are modelled as rationals,
Python `Optional` values as `Option`, pandas missing values (NaN) as
`none`, and `round(x, 2)` as decimal rounding half-to-even on rationals.
-/

namespace AppCore

/-- Embeds `_norm_issn`: `re.sub(r"[^0-9X]", "", s.upper())` — uppercase
the string, then keep only ASCII digits and the letter `X`. -/
def normIssn (s : String) : String :=
  ⟨(s.data.map Char.toUpper).filter (fun c => c.isDigit || c == 'X')⟩

/-- Last four characters of a string, embedding Python `tok[-4:]`
(for strings of length greater than 4, which is the only use site). -/
def lastFour (t : String) : String :=
  ⟨t.data.drop (t.data.length - 4)⟩

/-- Embeds the per-token body of `_norm_asjc_codes`:
`tok[-4:] if len(tok) > 4 else tok if len(tok) == 4 else tok`. -/
def adjustTok (t : String) : String :=
  if t.data.length > 4 then lastFour t else t

/-- Is the token non-empty and all ASCII digits?  Embeds
`tok and tok.isdigit()`. -/
def isDigitTok (t : String) : Bool :=
  !t.data.isEmpty && t.data.all Char.isDigit

/-- Embeds `_norm_asjc_codes` applied to an already-iterable collection
of tokens: keep non-empty all-digit tokens, adjust each with the
ternary of line 30, collect into a set, and keep only the members of
length exactly 4. -/
def normAsjcCodesTokens (toks : List String) : Finset String :=
  ((toks.filter isDigitTok).map adjustTok).toFinset.filter
    (fun t => t.data.length = 4)

/-- Embeds `re.split(r"[^0-9]", s)`: split the string at every
non-digit character (consecutive separators produce empty tokens,
which `_norm_asjc_codes` then drops). -/
def splitNonDigit (s : String) : List String :=
  (s.data.splitOnP (fun c => !c.isDigit)).map (fun l => ⟨l⟩)

/-- Embeds `_norm_asjc_codes` applied to a free-text string. -/
def normAsjcCodes (s : String) : Finset String :=
  normAsjcCodesTokens (splitNonDigit s)

/-- Embeds `quartile_from_percentile`. -/
def quartileFromPercentile (p : Option ℚ) : String :=
  match p with
  | none => ""
  | some p =>
    if p ≥ 90 then "QT"
    else if p ≥ 75 then "Q1"
    else if p ≥ 50 then "Q2"
    else if p ≥ 25 then "Q3"
    else "Q4"

/-- Round a rational to the nearest integer, ties to the even integer —
the rounding mode of Python's `round` and of pandas `.round`. -/
def roundHalfEven (q : ℚ) : ℤ :=
  let f := ⌊q⌋
  let r := q - (f : ℚ)
  if r < 1/2 then f
  else if 1/2 < r then f + 1
  else if Even f then f else f + 1

/-- Embeds `round(x, 2)` / `.round(2)` on our rational model. -/
def round2 (q : ℚ) : ℚ :=
  (roundHalfEven (q * 100) : ℚ) / 100

/-- Embeds `_qc_from_percentile` (the quality-class weight). -/
def qcFromPercentile (p : Option ℚ) : Option ℚ :=
  match p with
  | none => none
  | some p =>
    if p ≥ 90 then some (14/10)
    else if p ≥ 75 then some 1
    else if p ≥ 50 then some (8/10)
    else if p ≥ 25 then some (6/10)
    else if p ≥ 0 then some (4/10)
    else none

/-- Embeds `_ac_from_authors` (the author-credit weight):
`1.2 if n <= 1 else 1.2 / max(n, 1)`. -/
def acFromAuthors (n : ℤ) : ℚ :=
  if n ≤ 1 then 12/10 else (12/10) / (max n 1 : ℤ)

/-- Embeds `_to_int_year`: find the first run of four consecutive
ASCII digits in the string and read it as an integer. -/
def firstFourDigits : List Char → Option (List Char)
  | c1 :: c2 :: c3 :: c4 :: rest =>
    if c1.isDigit && c2.isDigit && c3.isDigit && c4.isDigit then
      some [c1, c2, c3, c4]
    else
      firstFourDigits (c2 :: c3 :: c4 :: rest)
  | _ => none

/-- Digit characters to the natural number they spell. -/
def digitsVal (cs : List Char) : ℕ :=
  cs.foldl (fun acc c => 10 * acc + (c.toNat - 48)) 0

/-- Embeds `_to_int_year`. -/
def toIntYear (s : String) : Option ℤ :=
  (firstFourDigits s.data).map (fun cs => (digitsVal cs : ℤ))

section StableSort

variable {α : Type} {κ : Type} [LinearOrder κ]

/-- Insert `x` into a list already sorted by descending `key`: walk past
the elements with strictly greater key and place `x` before the rest.
Together with `sortDesc` this models the stable multi-column descending
sort performed by pandas `sort_values` (which uses a stable lexsort when
given several columns). -/
def insDesc (key : α → κ) (x : α) : List α → List α
  | [] => [x]
  | y :: ys => if key x < key y then y :: insDesc key x ys else x :: y :: ys

/-- Stable sort by descending `key` (insertion sort). -/
def sortDesc (key : α → κ) (l : List α) : List α :=
  l.foldr (insDesc key) []

theorem insDesc_perm (key : α → κ) (x : α) (l : List α) :
    List.Perm (insDesc key x l) (x :: l) := by
  induction l with
  | nil => simp [insDesc]
  | cons y ys ih =>
    by_cases h : key x < key y
    · simpa [insDesc, h] using ((ih.cons y).trans (List.Perm.swap x y ys))
    · simp [insDesc, h]

theorem sortDesc_perm (key : α → κ) (l : List α) :
    List.Perm (sortDesc key l) l := by
  induction l with
  | nil => simp [sortDesc]
  | cons a l ih =>
    exact (insDesc_perm key a (sortDesc key l)).trans (ih.cons a)

theorem insDesc_pairwise (key : α → κ) (x : α) (l : List α)
    (h : l.Pairwise (fun a b => key b ≤ key a)) :
    (insDesc key x l).Pairwise (fun a b => key b ≤ key a) := by
  induction l with
  | nil => simp [insDesc]
  | cons y ys ih =>
    rcases List.pairwise_cons.mp h with ⟨hy, hys⟩
    by_cases hlt : key x < key y
    · rw [insDesc, if_pos hlt]
      refine List.pairwise_cons.mpr ⟨?_, ih hys⟩
      intro b hb
      rcases List.mem_cons.mp (((insDesc_perm key x ys).mem_iff).mp hb) with
        hb | hb
      · exact hb ▸ le_of_lt hlt
      · exact hy b hb
    · rw [insDesc, if_neg hlt]
      refine List.pairwise_cons.mpr ⟨?_, h⟩
      intro b hb
      rcases List.mem_cons.mp hb with hb | hb
      · exact hb ▸ le_of_not_lt hlt
      · exact le_trans (hy b hb) (le_of_not_lt hlt)

/-- The result of `sortDesc` is sorted: keys are non-increasing. -/
theorem sortDesc_pairwise (key : α → κ) (l : List α) :
    (sortDesc key l).Pairwise (fun a b => key b ≤ key a) := by
  induction l with
  | nil => simp [sortDesc]
  | cons a l ih => exact insDesc_pairwise key a _ ih

/-- The head of a `sortDesc`-sorted non-empty list is an element of the
input whose key is maximal among all input elements. -/
theorem sortDesc_head_max (key : α → κ) (l : List α) (h : l ≠ []) :
    ∃ c ∈ l, (sortDesc key l).head? = some c ∧
      ∀ d ∈ l, key d ≤ key c := by
  have hperm := sortDesc_perm key l
  have hne : sortDesc key l ≠ [] := by
    intro hnil
    exact h (List.Perm.eq_nil (hnil ▸ hperm.symm))
  rcases List.exists_cons_of_ne_nil hne with ⟨c, cs, hcons⟩
  refine ⟨c, ?_, by rw [hcons]; rfl, ?_⟩
  · exact hperm.mem_iff.mp (by rw [hcons]; exact List.mem_cons_self c cs)
  · intro d hd
    have hd' : d ∈ sortDesc key l := hperm.mem_iff.mpr hd
    rw [hcons] at hd'
    rcases List.mem_cons.mp hd' with hd'' | hd''
    · exact le_of_eq (congrArg key hd'')
    · have hp := sortDesc_pairwise key l
      rw [hcons, List.pairwise_cons] at hp
      exact hp.1 d hd''

variable [DecidableEq κ]

theorem insDesc_filter_key_eq (key : α → κ) (x : α) (l : List α) (k : κ)
    (h : l.Pairwise (fun a b => key b ≤ key a)) :
    (insDesc key x l).filter (fun a => key a = k) =
      if key x = k then x :: l.filter (fun a => key a = k)
      else l.filter (fun a => key a = k) := by
  induction l with
  | nil =>
    by_cases hk : key x = k <;> simp [insDesc, List.filter, hk]
  | cons y ys ih =>
    rcases List.pairwise_cons.mp h with ⟨hy, hys⟩
    by_cases hlt : key x < key y
    · rw [insDesc, if_pos hlt]
      by_cases hk : key x = k
      · have hyk : ¬ (key y = k) := by
          intro hyk
          exact absurd hlt (by simp [hk ▸ hyk, lt_irrefl])
        simp only [List.filter_cons, ih hys, hk, if_pos]
        simp [hyk]
      · simp only [List.filter_cons, ih hys, hk, if_neg]
        simp
    · rw [insDesc, if_neg hlt]
      by_cases hk : key x = k <;> simp [List.filter_cons, hk]

/-- Stability of `sortDesc`, stated as in the classic characterization:
for every key value, the sorted list restricted to that key equals the
input restricted to that key (so equal-key elements keep their input
order). -/
theorem sortDesc_filter_key_eq (key : α → κ) (l : List α) (k : κ) :
    (sortDesc key l).filter (fun a => key a = k) =
      l.filter (fun a => key a = k) := by
  induction l with
  | nil => simp [sortDesc]
  | cons a l ih =>
    have h := insDesc_filter_key_eq key a (sortDesc key l) k
      (sortDesc_pairwise key l)
    by_cases hk : key a = k
    · rw [sortDesc, List.foldr_cons]
      rw [show (List.foldr (insDesc key) [] l) = sortDesc key l from rfl] at *
      rw [h, if_pos hk, ih, List.filter_cons, if_pos (by simpa using hk)]
    · rw [sortDesc, List.foldr_cons]
      rw [show (List.foldr (insDesc key) [] l) = sortDesc key l from rfl] at *
      rw [h, if_neg hk, ih, List.filter_cons, if_neg (by simpa using hk)]

end StableSort

/-- Embeds pandas `drop_duplicates(keep="first")`: keep the first
occurrence of every element, preserving order. -/
def dedupF [DecidableEq α] : List α → List α
  | [] => []
  | x :: xs => x :: (dedupF xs).filter (fun a => a ≠ x)

theorem mem_dedupF [DecidableEq α] (a : α) (l : List α) :
    a ∈ dedupF l ↔ a ∈ l := by
  induction l with
  | nil => simp [dedupF]
  | cons x xs ih =>
    by_cases hax : a = x
    · simp [dedupF, hax]
    · simp [dedupF, hax, List.mem_filter, ih]

/-- A candidate row as consumed by `_pick_best_candidate`: the columns
`asjc_set`, `cs_percentile`, `citescore` of the canonical tables (where
`asjc_set` is always a frozenset built by `load_citescore_table`). -/
structure CRow where
  asjc : Finset String
  pct : Option ℚ
  score : Option ℚ
deriving DecidableEq

/-- A row of `cs_by_source` (`build_cs_by_source` output):
`source_id`, `asjc_set`, `cs_percentile`, `citescore`. -/
structure SRow where
  sourceId : String
  asjc : Finset String
  pct : Option ℚ
  score : Option ℚ
deriving DecidableEq

/-- A row of the canonical CiteScore table (`load_citescore_table`
output): `issn_key`, `eissn_key`, `asjc_set`, `cs_percentile`,
`citescore` (`source_id` is carried by `SRow` separately). -/
structure TRow where
  issnKey : String
  eissnKey : String
  asjc : Finset String
  pct : Option ℚ
  score : Option ℚ
deriving DecidableEq

/-- A row of the `cs_p` / `cs_e` projections built inside
`enrich_with_citescore_sourceid_asjc`: a single lookup key plus the
candidate columns. -/
structure PRow where
  key : String
  asjc : Finset String
  pct : Option ℚ
  score : Option ℚ
deriving DecidableEq

def SRow.toC (r : SRow) : CRow := ⟨r.asjc, r.pct, r.score⟩

def PRow.toC (r : PRow) : CRow := ⟨r.asjc, r.pct, r.score⟩

def TRow.projP (t : TRow) : PRow := ⟨t.issnKey, t.asjc, t.pct, t.score⟩

def TRow.projE (t : TRow) : PRow := ⟨t.eissnKey, t.asjc, t.pct, t.score⟩

/-- The ranking key of `_pick_best_candidate`: subject overlap with the
article, then percentile with missing filled by the sentinel `-1e9`
(`fillna(-1e9)`), compared lexicographically. -/
def pickBestKey (art : Finset String) (r : CRow) : ℕ ×ₗ ℚ :=
  toLex ((art ∩ r.asjc).card, r.pct.getD (-1000000000))

/-- Embeds `_pick_best_candidate`: empty candidates give `(None, None)`;
otherwise sort by descending `(_overlap, _pct)` (a stable multi-column
pandas sort) and return the top row's `cs_percentile` and `citescore`. -/
def pickBest (cands : List CRow) (art : Finset String) :
    Option ℚ × Option ℚ :=
  match (sortDesc (pickBestKey art) cands).head? with
  | none => (none, none)
  | some top => (top.pct, top.score)

/-- A publication row as consumed by
`enrich_with_citescore_sourceid_asjc`: the fields actually read there. -/
structure Pub where
  sourceId : String
  issnPrint : String
  issnElectronic : String
  asjcCodes : String
deriving DecidableEq

/-- The registry-id candidate set:
`cs_by_source[cs_by_source["source_id"].astype(str) == sid]`. -/
def registryCands (csS : List SRow) (sid : String) : List CRow :=
  (csS.filter (fun r => r.sourceId = sid)).map SRow.toC

/-- The print-identifier candidate set: rows of
`cs_p = cs_table[["issn_key","asjc_set","cs_percentile","citescore"]].drop_duplicates()`
whose `issn_key` equals the publication's. -/
def printCands (csT : List TRow) (issn : String) : List CRow :=
  ((dedupF (csT.map TRow.projP)).filter (fun r => r.key = issn)).map PRow.toC

/-- The electronic-identifier candidate set, analogous to `printCands`
via the `cs_e` projection. -/
def eCands (csT : List TRow) (eissn : String) : List CRow :=
  ((dedupF (csT.map TRow.projE)).filter (fun r => r.key = eissn)).map PRow.toC

/-- The fallback candidate set: `pd.concat([cs_p[...], cs_e[...]])`. -/
def idCands (csT : List TRow) (issn eissn : String) : List CRow :=
  printCands csT issn ++ eCands csT eissn

/-- Embeds the per-publication body of
`enrich_with_citescore_sourceid_asjc` (lines 219–233): registry-id
lookup when `source_id` is non-empty, identifier fallback when that
produced `(None, None)`, then the quartile label. -/
def enrichRow (csT : List TRow) (csS : List SRow) (pub : Pub) :
    Option ℚ × Option ℚ × String :=
  let art := normAsjcCodes pub.asjcCodes
  let pv :=
    if pub.sourceId ≠ "" then
      pickBest (registryCands csS pub.sourceId) art
    else (none, none)
  let pv2 :=
    if pv.1 = none ∧ pv.2 = none then
      pickBest (idCands csT (normIssn pub.issnPrint)
        (normIssn pub.issnElectronic)) art
    else pv
  (pv2.1, pv2.2, quartileFromPercentile pv2.1)

/-- Embeds `c.strip().lower()`, the key normalization of the loader's
column dictionary. -/
def normColKey (c : String) : String :=
  ⟨c.trim.data.map Char.toLower⟩

/-- `norm.get(alias)`: the dict comprehension maps each normalized name
to its original column, later columns overwriting earlier ones, so a
lookup returns the last column whose normalized name is the alias. -/
def colFor (cols : List String) (a : String) : Option String :=
  (cols.filter (fun c => normColKey c = a)).getLast?

/-- A chain `norm.get(a₁) or norm.get(a₂) or ...`: the first alias that
resolves wins. -/
def resolveAliases (cols : List String) : List String → Option String
  | [] => none
  | a :: rest =>
    match colFor cols a with
    | some c => some c
    | none => resolveAliases cols rest

def printAliases : List String := ["print issn", "p-issn", "issn"]

def eAliases : List String := ["e-issn", "eissn"]

def pctAliases : List String := ["percentile", "citescore percentile"]

def scoreAliases : List String := ["citescore", "citescore 2024"]

/-- The schema failure raised by `load_citescore_table`: its message
names the four required concepts and lists the columns present
(`"... 'Print ISSN','E-ISSN','Percentile','CiteScore' zorunlu.
Sütunlar: {list(cs.columns)}"`). -/
structure SchemaErr where
  required : List String
  present : List String
deriving DecidableEq

/-- The resolved required columns of the reference table. -/
structure ResolvedCols where
  printCol : String
  eCol : String
  pctCol : String
  scoreCol : String
deriving DecidableEq

def requiredConcepts : List String :=
  ["Print ISSN", "E-ISSN", "Percentile", "CiteScore"]

/-- Embeds the column-resolution step of `load_citescore_table`
(lines 86–95): resolve the four required columns by case-insensitive
alias matching and fail when any is missing. -/
def loadCitescoreCols (cols : List String) :
    Except SchemaErr ResolvedCols :=
  match resolveAliases cols printAliases, resolveAliases cols eAliases,
      resolveAliases cols pctAliases, resolveAliases cols scoreAliases with
  | some p, some e, some pct, some val => .ok ⟨p, e, pct, val⟩
  | _, _, _, _ => .error ⟨requiredConcepts, cols⟩

/-- A publication row as consumed by `build_app_sheet`: the fields read
from the enriched articles table. -/
structure ARow where
  eid : String
  title : String
  year : String
  publicationName : String
  subtype : String
  quartile : String
  authorsCount : Option ℤ
  pct : Option ℚ
deriving DecidableEq

/-- A scored output row of `build_app_sheet` (the `out_cols`). -/
structure OutRow where
  eid : String
  title : String
  year : String
  publicationName : String
  authorsCount : Option ℤ
  pct : Option ℚ
  quartile : String
  ac : ℚ
  qc : ℚ
  contribution : ℚ
deriving DecidableEq

def toLowerStr (s : String) : String := ⟨s.data.map Char.toLower⟩

/-- The year window: `set(fixed_years)` when the caller passed a truthy
(non-empty) set, else the current year and the two preceding years. -/
def yearsOk (cy : ℤ) (fy : Option (List ℤ)) : List ℤ :=
  match fy with
  | some l => if l ≠ [] then l else [cy, cy - 1, cy - 2]
  | none => [cy, cy - 1, cy - 2]

/-- Embeds the eligibility mask of `build_app_sheet` line 341:
`year_i ∈ years_ok ∧ cs_percentile_num not-NaN ∧ subtype_norm == "ar"`. -/
def appEligible (yrs : List ℤ) (r : ARow) : Bool :=
  (match toIntYear r.year with
   | some y => decide (y ∈ yrs)
   | none => false)
  && r.pct.isSome
  && (toLowerStr r.subtype = "ar")

/-- Builds one scored row: `AC`, `QC` rounded for display, while
`Contribution` is computed from the unrounded weights (lines 351–353). -/
def mkScored (r : ARow) (q : ℚ) : OutRow :=
  let n := r.authorsCount.getD 1
  let a := acFromAuthors n
  { eid := r.eid, title := r.title, year := r.year,
    publicationName := r.publicationName, authorsCount := r.authorsCount,
    pct := r.pct, quartile := r.quartile,
    ac := round2 a, qc := round2 q, contribution := round2 (a * q) }

/-- The scored rows in input order: the eligibility filter followed by
the `QC`-present filter and weight computation. -/
def appScoredRows (yrs : List ℤ) (input : List ARow) : List OutRow :=
  (input.filter (appEligible yrs)).filterMap
    (fun r => (qcFromPercentile r.pct).map (mkScored r))

/-- The output sort key of `sort_values(["year","Contribution"],
ascending=[False,False])`: the raw year string, then the contribution,
both descending (lexicographic on the pair). -/
def outKey (r : OutRow) : String ×ₗ ℚ := toLex (r.year, r.contribution)

structure Summary where
  appTotal : ℚ
  eligibility : String
  years : List ℤ
deriving DecidableEq

/-- `sorted(years_ok)` on the Python set: deduplicate, sort ascending. -/
def sortedYearsAsc (yrs : List ℤ) : List ℤ :=
  sortDesc (fun y : ℤ => OrderDual.toDual y) (dedupF yrs)

def tierTwo : String :=
  "APP > 1.0 → up to 2 supports per academic year (only 1 requires full indexing & APP check)"

def tierOne : String := "0.4 ≤ APP ≤ 1.0 → 1 support per academic year"

def tierLow : String :=
  "APP < 0.4 → 1 support per academic year (if other criteria met)"

def tierNone : String := "No eligible items"

def tierNoneQC : String := "No eligible items (QC missing)"

/-- Embeds `build_app_sheet`. -/
def buildAppSheet (input : List ARow) (cy : ℤ) (fy : Option (List ℤ)) :
    List OutRow × Summary :=
  if input = [] then ([], ⟨0, tierNone, []⟩)
  else
    let yrs := yearsOk cy fy
    if input.filter (appEligible yrs) = [] then
      ([], ⟨0, tierNone, sortedYearsAsc yrs⟩)
    else
      let scored := appScoredRows yrs input
      if scored = [] then ([], ⟨0, tierNoneQC, sortedYearsAsc yrs⟩)
      else
        let out := sortDesc outKey scored
        let total := round2 ((out.map OutRow.contribution).sum)
        let tier :=
          if total > 1 then tierTwo
          else if total ≥ 4/10 then tierOne
          else tierLow
        (out, ⟨round2 total, tier, sortedYearsAsc yrs⟩)

theorem kept_char_toUpper_fixed (c : Char)
    (h : (c.isDigit || c == 'X') = true) : c.toUpper = c := by
  have h' : c.isDigit = true ∨ c = 'X' := by
    simpa using h
  rcases h' with hd | hx
  · have h57 : c.val ≤ 57 := by
      have hd' : decide (c.val ≥ 48) = true ∧ decide (c.val ≤ 57) = true := by
        simpa [Char.isDigit] using hd
      exact of_decide_eq_true hd'.2
    rw [Char.toUpper, if_neg]
    intro hc
    have h97 : (97 : ℕ) ≤ c.toNat := hc.1
    have hle : c.toNat ≤ 57 := by
      have : c.val.toBitVec.toNat ≤ (57 : UInt32).toBitVec.toNat :=
        BitVec.le_def.mp h57
      simpa [Char.toNat, UInt32.toNat] using this
    omega
  · subst hx
    decide

theorem roundHalfEven_intCast (k : ℤ) : roundHalfEven (k : ℚ) = k := by
  simp [roundHalfEven]

theorem round2_round2 (q : ℚ) : round2 (round2 q) = round2 q := by
  unfold round2
  rw [div_mul_cancel₀ _ (by norm_num : (100 : ℚ) ≠ 0), roundHalfEven_intCast]

theorem round2_zero : round2 0 = 0 := by
  simp [round2, roundHalfEven]

/-- Claim C9: journal-identifier normalization is idempotent:
`normalize_journal_id(normalize_journal_id(x)) == normalize_journal_id(x)`
for every string `x` (`_norm_issn` keeps only digits and `X`, which
uppercasing then fixes). -/
theorem norm_issn_idempotent (s : String) :
    normIssn (normIssn s) = normIssn s := by
  unfold normIssn
  apply congrArg String.mk
  have hmem : ∀ c ∈ (s.data.map Char.toUpper).filter
      (fun c => c.isDigit || c == 'X'), (c.isDigit || c == 'X') = true :=
    fun c hc => (List.mem_filter.mp hc).2
  have hmap : ((s.data.map Char.toUpper).filter
      (fun c => c.isDigit || c == 'X')).map Char.toUpper =
      (s.data.map Char.toUpper).filter (fun c => c.isDigit || c == 'X') := by
    have := List.map_congr_left
      (fun c hc => kept_char_toUpper_fixed c (hmem c hc))
    simpa using this
  rw [hmap, List.filter_filter]
  apply List.filter_congr
  intro c _
  simp

/-- Claim C8, counterexample: the all-digit token `"140"` is shorter
than 4 characters, yet `_norm_asjc_codes` returns the empty set for it
— the token is never right-padded to `"1400"`; the `len < 4` branch of
line 30 keeps the token unchanged and the final length-4 filter then
discards it. -/
theorem norm_asjc_short_token_cex :
    isDigitTok "140" = true ∧ "140".data.length < 4 ∧
      normAsjcCodesTokens ["140"] = ∅ ∧ normAsjcCodes "140" = ∅ := by
  decide

/-- Claim C8, amended: `normalize_subject_codes` keeps a code `c` iff
`c` has exactly 4 characters and arises from some non-empty all-digit
token by the adjustment of line 30 (truncation to the last 4 characters
for tokens longer than 4, identity otherwise); in particular all-digit
tokens shorter than 4 characters are discarded, not right-padded. -/
theorem norm_asjc_membership_spec (toks : List String) (c : String) :
    c ∈ normAsjcCodesTokens toks ↔
      (c.data.length = 4 ∧
        ∃ t ∈ toks, isDigitTok t = true ∧ adjustTok t = c) := by
  unfold normAsjcCodesTokens
  rw [Finset.mem_filter, List.mem_toFinset, List.mem_map]
  constructor
  · rintro ⟨⟨t, ht, rfl⟩, hlen⟩
    exact ⟨hlen, t, (List.mem_filter.mp ht).1, (List.mem_filter.mp ht).2, rfl⟩
  · rintro ⟨hlen, t, ht, hdig, rfl⟩
    exact ⟨⟨t, List.mem_filter.mpr ⟨ht, hdig⟩, rfl⟩, hlen⟩

theorem appScoredRows_nil_of_input_nil (yrs : List ℤ) :
    appScoredRows yrs [] = [] := rfl

theorem appScoredRows_nil_of_filter_nil (yrs : List ℤ) (input : List ARow)
    (h : input.filter (appEligible yrs) = []) :
    appScoredRows yrs input = [] := by
  unfold appScoredRows
  rw [h, List.filterMap_nil]

/-- In every branch of `build_app_sheet`, the returned table is the
stable descending sort of the scored rows (in the degenerate branches
both sides are empty). -/
theorem buildAppSheet_fst (input : List ARow) (cy : ℤ)
    (fy : Option (List ℤ)) :
    (buildAppSheet input cy fy).1 =
      sortDesc outKey (appScoredRows (yearsOk cy fy) input) := by
  unfold buildAppSheet
  by_cases h0 : input = []
  · subst h0
    rw [if_pos rfl, appScoredRows_nil_of_input_nil]
    rfl
  · rw [if_neg h0]
    by_cases h1 : input.filter (appEligible (yearsOk cy fy)) = []
    · rw [if_pos h1, appScoredRows_nil_of_filter_nil _ _ h1]
      rfl
    · rw [if_neg h1]
      by_cases h2 : appScoredRows (yearsOk cy fy) input = []
      · rw [if_pos h2, h2]
        rfl
      · rw [if_neg h2]

/-- Claim C3: the quality-class weight `_qc_from_percentile` follows the
spec's thresholds with `None` below 0, the author-credit weight
`_ac_from_authors` is 1.2 for at most one author and `1.2/n` otherwise,
every scored row's contribution is `round(author_credit * quality_class,
2)` with a present quality class (rows whose quality class is `None` are
excluded), and the two concrete examples: sole author at percentile 92
gives 1.4, 1.2 and 1.68; three authors at percentile 60 give 0.8, 0.4
and 0.32. -/
theorem scoring_weights_spec :
    (qcFromPercentile none = none) ∧
    (∀ p : ℚ, qcFromPercentile (some p) =
      (if p ≥ 90 then some (14/10) else if p ≥ 75 then some 1
       else if p ≥ 50 then some (8/10) else if p ≥ 25 then some (6/10)
       else if p ≥ 0 then some (4/10) else none)) ∧
    (∀ n : ℤ, acFromAuthors n =
      (if n ≤ 1 then 12/10 else 12/10 / (n : ℚ))) ∧
    (∀ (input : List ARow) (cy : ℤ) (fy : Option (List ℤ)),
      ∀ r ∈ (buildAppSheet input cy fy).1,
        ∃ q, qcFromPercentile r.pct = some q ∧
          r.contribution =
            round2 (acFromAuthors (r.authorsCount.getD 1) * q)) ∧
    (qcFromPercentile (some 92) = some (14/10) ∧ acFromAuthors 1 = 12/10 ∧
      round2 (acFromAuthors 1 * (14/10)) = 168/100) ∧
    (qcFromPercentile (some 60) = some (8/10) ∧ acFromAuthors 3 = 4/10 ∧
      round2 (acFromAuthors 3 * (8/10)) = 32/100) := by
  refine ⟨rfl, fun p => rfl, ?_, ?_,
    by with_unfolding_all decide, by with_unfolding_all decide⟩
  · intro n
    by_cases h : n ≤ 1
    · simp [acFromAuthors, h]
    · have h1 : (1 : ℤ) ≤ n := le_of_lt (lt_of_not_le h)
      simp [acFromAuthors, h, max_eq_left h1]
  · intro input cy fy r hr
    have hr' : r ∈ appScoredRows (yearsOk cy fy) input :=
      (sortDesc_perm outKey _).mem_iff.mp (buildAppSheet_fst input cy fy ▸ hr)
    rcases List.mem_filterMap.mp hr' with ⟨a, _, ha⟩
    rcases Option.map_eq_some'.mp ha with ⟨q, hq, hmk⟩
    subst hmk
    exact ⟨q, hq, rfl⟩

/-- Input row of the claim-C3 witness: sole-author journal article of
2024 at percentile 92. -/
def c3In : ARow := ⟨"x", "t", "2024", "J", "ar", "QT", some 1, some 92⟩

/-- Output row of the claim-C3 witness. -/
def c3Out : OutRow :=
  ⟨"x", "t", "2024", "J", some 1, some 92, "QT", 12/10, 14/10, 168/100⟩

theorem scoring_weights_spec_witness :
    (buildAppSheet [c3In] 2024 none).1 = [c3Out] ∧
      (∃ q, qcFromPercentile c3Out.pct = some q ∧
        c3Out.contribution =
          round2 (acFromAuthors (c3Out.authorsCount.getD 1) * q)) :=
  ⟨by with_unfolding_all decide,
    scoring_weights_spec.2.2.2.1 [c3In] 2024 none c3Out
      (by with_unfolding_all decide)⟩

/-- Claim C4, counterexample: the eligibility filter of
`build_app_sheet` lower-cases the type code before comparing, so a
publication with `type_code = "AR"` (not equal to `"ar"`) still
qualifies; moreover a caller-supplied empty year set is falsy in
Python, so the window falls back to the default three years instead of
the supplied (empty) set, and a publication of the current year
qualifies although the claim's window would exclude everything. -/
theorem eligibility_case_cex :
    (appEligible (yearsOk 2025 (some [2023, 2024]))
        ⟨"e1", "t", "2024", "J", "AR", "Q2", some 1, some 50⟩ = true ∧
      ("AR" : String) ≠ "ar") ∧
    (appEligible (yearsOk 2025 (some []))
        ⟨"e2", "t", "2025", "J", "ar", "Q2", some 1, some 50⟩ = true ∧
      (2025 : ℤ) ∉ ([] : List ℤ)) := by
  with_unfolding_all decide

/-- Claim C4, amended: a publication qualifies for scoring iff its
lower-cased type code equals `"ar"`, its year is parseable to an
integer lying in the configured window, and its percentile is present;
the window is the caller-supplied year set when that set is non-empty,
and otherwise (no set supplied, or an empty one) the current year and
the two preceding years. -/
theorem eligibility_filter_spec :
    (∀ (yrs : List ℤ) (r : ARow), appEligible yrs r = true ↔
      (toLowerStr r.subtype = "ar" ∧
        (∃ y, toIntYear r.year = some y ∧ y ∈ yrs) ∧
        r.pct.isSome = true)) ∧
    (∀ (cy : ℤ) (l : List ℤ), l ≠ [] → yearsOk cy (some l) = l) ∧
    (∀ cy : ℤ, yearsOk cy none = [cy, cy - 1, cy - 2]) ∧
    (∀ cy : ℤ, yearsOk cy (some []) = [cy, cy - 1, cy - 2]) := by
  refine ⟨?_, ?_, fun cy => rfl, fun cy => rfl⟩
  · intro yrs r
    unfold appEligible
    cases h : toIntYear r.year with
    | none => simp [h]
    | some y =>
      simp only [h, Bool.and_eq_true, decide_eq_true_eq]
      constructor
      · rintro ⟨⟨hy, hp⟩, hs⟩
        exact ⟨by simpa using hs, ⟨y, rfl, hy⟩, hp⟩
      · rintro ⟨hs, ⟨y', hy', hmem⟩, hp⟩
        have hyy : y = y' := Option.some.inj hy'
        exact ⟨⟨hyy ▸ hmem, hp⟩, by simpa using hs⟩
  · intro cy l hl
    simp [yearsOk, hl]

theorem eligibility_filter_spec_witness :
    (yearsOk 2025 (some [2023, 2024]) = [2023, 2024]) ∧
      (appEligible [2024]
        ⟨"e1", "t", "2024", "J", "ar", "Q2", some 1, some 50⟩ = true ↔
        (toLowerStr "ar" = "ar" ∧
          (∃ y, toIntYear "2024" = some y ∧ y ∈ ([2024] : List ℤ)) ∧
          (some (50 : ℚ)).isSome = true)) :=
  ⟨eligibility_filter_spec.2.1 2025 [2023, 2024] (by decide),
    eligibility_filter_spec.1 [2024]
      ⟨"e1", "t", "2024", "J", "ar", "Q2", some 1, some 50⟩⟩

/-- Claim C5: the reported total is `round(sum of contributions, 2)` over
the scored table; on a non-empty table the eligibility tier is chosen by
the ordered mutually exclusive thresholds (`> 1.0` two supports,
`0.4 ≤ · ≤ 1.0` one support, `< 0.4` contingent); and when no
publication passes the eligibility filter the table is empty with total
0.0 and the distinguished no-eligible-items tier. -/
theorem app_total_tiers_spec (input : List ARow) (cy : ℤ)
    (fy : Option (List ℤ)) :
    ((buildAppSheet input cy fy).2.appTotal =
      round2 (((buildAppSheet input cy fy).1.map OutRow.contribution).sum)) ∧
    ((buildAppSheet input cy fy).1 ≠ [] →
      (buildAppSheet input cy fy).2.eligibility =
        (if (buildAppSheet input cy fy).2.appTotal > 1 then tierTwo
         else if (buildAppSheet input cy fy).2.appTotal ≥ 4/10 then tierOne
         else tierLow)) ∧
    ((∀ r ∈ input, appEligible (yearsOk cy fy) r = false) →
      (buildAppSheet input cy fy).1 = [] ∧
      (buildAppSheet input cy fy).2.appTotal = 0 ∧
      (buildAppSheet input cy fy).2.eligibility = tierNone) := by
  by_cases h0 : input = []
  · subst h0
    refine ⟨by simp [buildAppSheet, round2_zero], ?_, ?_⟩
    · intro h
      exact absurd rfl h
    · intro _
      exact ⟨rfl, rfl, rfl⟩
  · by_cases h1 : input.filter (appEligible (yearsOk cy fy)) = []
    · have hB : buildAppSheet input cy fy =
          ([], ⟨0, tierNone, sortedYearsAsc (yearsOk cy fy)⟩) := by
        unfold buildAppSheet
        rw [if_neg h0, if_pos h1]
      refine ⟨by simp [hB, round2_zero], ?_, ?_⟩
      · intro h
        rw [hB] at h
        exact absurd rfl h
      · intro _
        rw [hB]
        exact ⟨rfl, rfl, rfl⟩
    · have hne : ¬ (∀ r ∈ input, appEligible (yearsOk cy fy) r = false) := by
        intro hall
        exact h1 (List.filter_eq_nil_iff.mpr
          (fun r hr => by simp [hall r hr]))
      by_cases h2 : appScoredRows (yearsOk cy fy) input = []
      · have hB : buildAppSheet input cy fy =
            ([], ⟨0, tierNoneQC, sortedYearsAsc (yearsOk cy fy)⟩) := by
          unfold buildAppSheet
          rw [if_neg h0, if_neg h1, if_pos h2]
        refine ⟨by simp [hB, round2_zero], ?_, fun hall => absurd hall hne⟩
        intro h
        rw [hB] at h
        exact absurd rfl h
      · have hB : buildAppSheet input cy fy =
            (sortDesc outKey (appScoredRows (yearsOk cy fy) input),
              ⟨round2 (round2 (((sortDesc outKey
                  (appScoredRows (yearsOk cy fy) input)).map
                  OutRow.contribution).sum)),
                (if round2 (((sortDesc outKey
                      (appScoredRows (yearsOk cy fy) input)).map
                      OutRow.contribution).sum) > 1 then tierTwo
                 else if round2 (((sortDesc outKey
                      (appScoredRows (yearsOk cy fy) input)).map
                      OutRow.contribution).sum) ≥ 4/10 then tierOne
                 else tierLow),
                sortedYearsAsc (yearsOk cy fy)⟩) := by
          unfold buildAppSheet
          rw [if_neg h0, if_neg h1, if_neg h2]
        refine ⟨?_, ?_, fun hall => absurd hall hne⟩
        · rw [hB]
          exact round2_round2 _
        · intro _
          rw [hB]
          simp only [round2_round2]

set_option maxRecDepth 8000 in
/-- Claim C6, counterexample: with the fixed window `{2023, 2024}`, a
qualifying publication whose year field is the parseable string
`"a2023"` sorts before a publication of year `"2024"`, because
`sort_values` compares the raw year strings (`"a2023" > "2024"`
lexicographically) — so the output is not sorted by (parsed) year
descending as the claim states. -/
theorem sort_year_string_cex :
    ((buildAppSheet
        [⟨"a", "t", "a2023", "J", "ar", "Q2", some 1, some 50⟩,
         ⟨"b", "t", "2024", "J", "ar", "Q2", some 1, some 50⟩]
        2025 (some [2023, 2024])).1.map (fun r => toIntYear r.year)) =
      [some 2023, some 2024] ∧ (2023 : ℤ) < 2024 := by
  with_unfolding_all decide

/-- Claim C6, amended: the scored output list is the stable sort of the
qualifying items by the raw year string descending (which agrees with
year descending whenever year fields are canonical digit strings), then
contribution descending: keys are pairwise non-increasing, the output is
a permutation of the scored rows in input order, and for every key value
the output restricted to that key equals the input restricted to it
(equal-key items keep their relative input order). -/
theorem output_sort_spec (input : List ARow) (cy : ℤ)
    (fy : Option (List ℤ)) :
    ((buildAppSheet input cy fy).1.Pairwise
      (fun a b => outKey b ≤ outKey a)) ∧
    List.Perm (buildAppSheet input cy fy).1
      (appScoredRows (yearsOk cy fy) input) ∧
    (∀ k : String ×ₗ ℚ,
      (buildAppSheet input cy fy).1.filter (fun r => outKey r = k) =
        (appScoredRows (yearsOk cy fy) input).filter
          (fun r => outKey r = k)) := by
  rw [buildAppSheet_fst]
  exact ⟨sortDesc_pairwise outKey _, sortDesc_perm outKey _,
    fun k => sortDesc_filter_key_eq outKey _ k⟩

theorem app_total_tiers_spec_witness :
    ((buildAppSheet [⟨"x", "t", "2024", "J", "ar", "QT", some 1, some 92⟩]
        2024 none).2.eligibility =
      (if (buildAppSheet [⟨"x", "t", "2024", "J", "ar", "QT", some 1,
            some 92⟩] 2024 none).2.appTotal > 1 then tierTwo
       else if (buildAppSheet [⟨"x", "t", "2024", "J", "ar", "QT", some 1,
            some 92⟩] 2024 none).2.appTotal ≥ 4/10 then tierOne
       else tierLow)) ∧
    ((buildAppSheet [⟨"y", "t", "2024", "J", "re", "Q2", some 1, some 50⟩]
        2024 none).1 = [] ∧
      (buildAppSheet [⟨"y", "t", "2024", "J", "re", "Q2", some 1,
        some 50⟩] 2024 none).2.appTotal = 0 ∧
      (buildAppSheet [⟨"y", "t", "2024", "J", "re", "Q2", some 1,
        some 50⟩] 2024 none).2.eligibility = tierNone) :=
  ⟨(app_total_tiers_spec [⟨"x", "t", "2024", "J", "ar", "QT", some 1,
      some 92⟩] 2024 none).2.1 (by with_unfolding_all decide),
    (app_total_tiers_spec [⟨"y", "t", "2024", "J", "re", "Q2", some 1,
      some 50⟩] 2024 none).2.2 (by with_unfolding_all decide)⟩

/-- Claim C7: whenever any of the print-identifier, electronic-identifier,
percentile or score columns cannot be resolved by case-insensitive alias
matching, the loader fails with a schema error that carries the four
required concept names (so in particular the missing one) together with
the list of columns actually present. -/
theorem load_schema_error_spec (cols : List String)
    (h : resolveAliases cols printAliases = none ∨
      resolveAliases cols eAliases = none ∨
      resolveAliases cols pctAliases = none ∨
      resolveAliases cols scoreAliases = none) :
    loadCitescoreCols cols = .error ⟨requiredConcepts, cols⟩ ∧
      "Print ISSN" ∈ requiredConcepts ∧ "E-ISSN" ∈ requiredConcepts ∧
      "Percentile" ∈ requiredConcepts ∧ "CiteScore" ∈ requiredConcepts := by
  refine ⟨?_, by decide, by decide, by decide, by decide⟩
  unfold loadCitescoreCols
  cases hp : resolveAliases cols printAliases <;>
    cases he : resolveAliases cols eAliases <;>
      cases hpc : resolveAliases cols pctAliases <;>
        cases hv : resolveAliases cols scoreAliases <;>
          simp_all

theorem load_schema_error_spec_witness :
    loadCitescoreCols ["Print ISSN", "E-ISSN", "CiteScore"] =
      .error ⟨requiredConcepts, ["Print ISSN", "E-ISSN", "CiteScore"]⟩ ∧
      "Print ISSN" ∈ requiredConcepts ∧ "E-ISSN" ∈ requiredConcepts ∧
      "Percentile" ∈ requiredConcepts ∧ "CiteScore" ∈ requiredConcepts :=
  load_schema_error_spec ["Print ISSN", "E-ISSN", "CiteScore"]
    (by with_unfolding_all decide)

theorem pickBest_nil (art : Finset String) :
    pickBest [] art = (none, none) := rfl

/-- Claim C1, counterexample: a missing percentile is not treated as the
lowest possible value but as the sentinel `-1e9` (`fillna(-1e9)`): with
two candidates of equal subject overlap, one with a missing percentile
and one with percentile `-2e9`, the matcher returns the missing-percentile
candidate, although the claim's ranking (missing sorts last) would rank
the `-2e9` candidate first. -/
theorem pickBest_missing_sentinel_cex :
    ([(⟨∅, none, some 1⟩ : CRow), ⟨∅, some (-2000000000), some 2⟩].map
      (fun c => ((∅ : Finset String) ∩ c.asjc).card)) = [0, 0] ∧
    pickBest [⟨∅, none, some 1⟩, ⟨∅, some (-2000000000), some 2⟩] ∅ =
      (none, some 1) ∧
    pickBest [⟨∅, none, some 1⟩, ⟨∅, some (-2000000000), some 2⟩] ∅ ≠
      (some (-2000000000), some 2) := by
  with_unfolding_all decide

/-- Claim C1, amended: for every non-empty candidate set the matcher
returns the percentile and score of a candidate that is maximal for the
ranking key (descending subject-overlap size, then descending percentile
with a missing percentile replaced by the sentinel `-1e9`, which sorts
below every percentile above `-1e9` — in particular below every valid
percentile); in particular, for candidate A with percentile 70 and
overlap 2 and candidate B with percentile 95 and overlap 1, the matcher
returns A's percentile and score (see the witness). -/
theorem pickBest_returns_max_candidate (cands : List CRow)
    (art : Finset String) (h : cands ≠ []) :
    ∃ c ∈ cands, pickBest cands art = (c.pct, c.score) ∧
      ∀ d ∈ cands, pickBestKey art d ≤ pickBestKey art c := by
  rcases sortDesc_head_max (pickBestKey art) cands h with ⟨c, hc, hhead, hmax⟩
  refine ⟨c, hc, ?_, hmax⟩
  unfold pickBest
  rw [hhead]

set_option maxRecDepth 8000 in
theorem pickBest_returns_max_candidate_witness :
    pickBest [⟨{"1402", "2700"}, some 70, some 3⟩,
        ⟨{"1402"}, some 95, some 5⟩] {"1402", "2700"} = (some 70, some 3) ∧
    (∃ c ∈ [(⟨{"1402", "2700"}, some 70, some 3⟩ : CRow),
        ⟨{"1402"}, some 95, some 5⟩],
      pickBest [⟨{"1402", "2700"}, some 70, some 3⟩,
        ⟨{"1402"}, some 95, some 5⟩] {"1402", "2700"} = (c.pct, c.score) ∧
      ∀ d ∈ [(⟨{"1402", "2700"}, some 70, some 3⟩ : CRow),
          ⟨{"1402"}, some 95, some 5⟩],
        pickBestKey {"1402", "2700"} d ≤ pickBestKey {"1402", "2700"} c) :=
  ⟨by with_unfolding_all decide,
    pickBest_returns_max_candidate _ _ (by decide)⟩

/-- Claim C2: the registry-id candidate set is exactly the reference
rows whose registry id matches the publication's; the identifier
candidate set is exactly the union of rows matching on the normalized
print identifier and rows matching on the normalized electronic
identifier; when the registry step contributes nothing (no registry id,
or no matching rows) the result comes from the identifier lookup; and
when that lookup's candidate set is empty too, the publication is
unmatched with percentile `None`, score `None` and quartile label `""`. -/
theorem enrich_candidate_fallback_spec (csT : List TRow) (csS : List SRow)
    (pub : Pub) :
    (∀ c : CRow, c ∈ registryCands csS pub.sourceId ↔
      ∃ s ∈ csS, s.sourceId = pub.sourceId ∧ c = s.toC) ∧
    (∀ (i e : String) (c : CRow), c ∈ idCands csT i e ↔
      ((∃ t ∈ csT, t.issnKey = i ∧ c = t.projP.toC) ∨
        (∃ t ∈ csT, t.eissnKey = e ∧ c = t.projE.toC))) ∧
    ((pub.sourceId = "" ∨ registryCands csS pub.sourceId = []) →
      enrichRow csT csS pub =
        ((pickBest (idCands csT (normIssn pub.issnPrint)
            (normIssn pub.issnElectronic)) (normAsjcCodes pub.asjcCodes)).1,
          (pickBest (idCands csT (normIssn pub.issnPrint)
            (normIssn pub.issnElectronic)) (normAsjcCodes pub.asjcCodes)).2,
          quartileFromPercentile (pickBest (idCands csT
            (normIssn pub.issnPrint) (normIssn pub.issnElectronic))
            (normAsjcCodes pub.asjcCodes)).1)) ∧
    ((pub.sourceId = "" ∨ registryCands csS pub.sourceId = []) →
      idCands csT (normIssn pub.issnPrint) (normIssn pub.issnElectronic)
        = [] →
      enrichRow csT csS pub = (none, none, "")) := by
  have h3 : (pub.sourceId = "" ∨ registryCands csS pub.sourceId = []) →
      enrichRow csT csS pub =
        ((pickBest (idCands csT (normIssn pub.issnPrint)
            (normIssn pub.issnElectronic)) (normAsjcCodes pub.asjcCodes)).1,
          (pickBest (idCands csT (normIssn pub.issnPrint)
            (normIssn pub.issnElectronic)) (normAsjcCodes pub.asjcCodes)).2,
          quartileFromPercentile (pickBest (idCands csT
            (normIssn pub.issnPrint) (normIssn pub.issnElectronic))
            (normAsjcCodes pub.asjcCodes)).1) := by
    intro h
    unfold enrichRow
    rcases h with h | h
    · simp [h]
    · by_cases hs : pub.sourceId = ""
      · simp [hs]
      · simp [hs, h, pickBest_nil]
  refine ⟨?_, ?_, h3, ?_⟩
  · intro c
    unfold registryCands
    simp only [List.mem_map, List.mem_filter, decide_eq_true_eq]
    constructor
    · rintro ⟨s, ⟨hs, hsid⟩, rfl⟩
      exact ⟨s, hs, hsid, rfl⟩
    · rintro ⟨s, hs, hsid, rfl⟩
      exact ⟨s, ⟨hs, hsid⟩, rfl⟩
  · intro i e c
    unfold idCands printCands eCands
    rw [List.mem_append]
    constructor
    · rintro (hc | hc) <;>
        [left; right] <;>
        · rcases List.mem_map.mp hc with ⟨p, hp, rfl⟩
          rcases List.mem_filter.mp hp with ⟨hp', hkey⟩
          rcases List.mem_map.mp ((mem_dedupF p _).mp hp') with ⟨t, ht, rfl⟩
          exact ⟨t, ht, by simpa using hkey, rfl⟩
    · rintro (⟨t, ht, hkey, rfl⟩ | ⟨t, ht, hkey, rfl⟩) <;>
        [left; right] <;>
        · refine List.mem_map.mpr ⟨_, List.mem_filter.mpr
            ⟨(mem_dedupF _ _).mpr (List.mem_map.mpr ⟨t, ht, rfl⟩),
              by simpa using hkey⟩, rfl⟩
  · intro h hid
    rw [h3 h, hid, pickBest_nil]
    rfl

theorem enrich_candidate_fallback_spec_witness :
    enrichRow [] [] ⟨"", "", "", ""⟩ = (none, none, "") :=
  (enrich_candidate_fallback_spec [] [] ⟨"", "", "", ""⟩).2.2.2
    (Or.inl rfl) rfl

/-- Claim C10: when a publication has a non-empty registry id whose
candidate set is non-empty but the matcher returns percentile `None`
and score `None` from it, the enrichment does not stop there: it
produces exactly the result it would produce for the same publication
with an empty registry id, i.e. the identifier-lookup result. -/
theorem enrich_registry_none_fallback (csT : List TRow) (csS : List SRow)
    (pub : Pub) (hs : pub.sourceId ≠ "")
    (_hne : registryCands csS pub.sourceId ≠ [])
    (hnone : pickBest (registryCands csS pub.sourceId)
      (normAsjcCodes pub.asjcCodes) = (none, none)) :
    enrichRow csT csS pub = enrichRow csT csS { pub with sourceId := "" } := by
  unfold enrichRow
  simp [hs, hnone]

set_option maxRecDepth 16000 in
theorem enrich_registry_none_fallback_witness :
    enrichRow [⟨"1234X", "9999", {"1402"}, some 50, some 2⟩]
        [⟨"5", ∅, none, none⟩] ⟨"5", "12-34x", "", "1402"⟩ =
      (some 50, some 2, "Q2") ∧
    enrichRow [⟨"1234X", "9999", {"1402"}, some 50, some 2⟩]
        [⟨"5", ∅, none, none⟩] ⟨"5", "12-34x", "", "1402"⟩ =
      enrichRow [⟨"1234X", "9999", {"1402"}, some 50, some 2⟩]
        [⟨"5", ∅, none, none⟩]
        { (⟨"5", "12-34x", "", "1402"⟩ : Pub) with sourceId := "" } :=
  ⟨by with_unfolding_all decide,
    enrich_registry_none_fallback _ _ _ (by decide) (by decide)
      (by with_unfolding_all decide)⟩

end AppCore
